import Mathlib

/-!
A shallow embedding of the arborist in-memory authorization engine
(`arborist/server.go`, engine part): the role forest, the
permission/resource/service catalog, the JSON-graph loader and the
`CheckAuth` fan-out decision procedure, together with theorems about the
engine's behaviour.

Modelling conventions:
* Go maps keyed by strings are association lists (`List (String × α)`);
  Go map assignment is modelled by consing (the newest binding shadows
  older ones, which is what `List.lookup` observes), and Go map deletion
  by filtering.  Iteration order of Go maps is unspecified; list order
  stands in for one arbitrary order, and no theorem below depends on it
  in a way the Go program does not.
* Go pointer identity matters only for `Resource` and `Service`
  (the find-or-create identity questions), so those two carry an
  allocation tag `ptr : Nat`; the engine state carries the allocation
  counter `nextPtr` standing in for the Go heap.
* Roles form a tree by value.  In Go the parent/child links are pointers
  and `Role.Parent` is a back-reference; the back-references are
  represented here by tree containment itself (no stated theorem
  inspects `Parent`).  The engine's `roles` index maps a name to the
  role value registered under that name at registration time.
* Functions that mutate the engine through a receiver pointer become
  state-passing functions returning the new engine alongside the result;
  mutations performed before an error is returned persist, exactly as in
  the Go code.
* Code of the repository that is not among the sources (role.go,
  resource.go, service.go, permission.go, action.go: `NewRole`,
  `NewService`, `NewResource`, `newPermission`, `newAction`,
  `ActionJSON.validateFields`, `Role.validate`, `Role.update`) is
  modelled from the spec; each such definition carries a doc comment
  starting with `Modelled from the spec:`.
-/

namespace Arborist

/-- Go map assignment `m[k] = v` on an association list: the new binding
shadows any older binding for the same key. -/
def mapSet {α : Type} (m : List (String × α)) (k : String) (v : α) :
    List (String × α) :=
  (k, v) :: m

/-- Go map deletion `delete(m, k)` on an association list. -/
def mapDel {α : Type} (m : List (String × α)) (k : String) :
    List (String × α) :=
  m.filter (fun kv => !(kv.1 == k))

/-- Constraints: a string-to-string mapping (`Constraints` in Go). -/
abbrev Constraints := List (String × String)

/-- A resource, identified by its (path-shaped) ID.  `ptr` is the
allocation tag standing in for Go pointer identity. -/
structure Resource where
  ptr : Nat
  ID : String
deriving DecidableEq, Repr

/-- A service: ID plus the URI-to-resource alias table.  `ptr` is the
allocation tag standing in for Go pointer identity. -/
structure Service where
  ptr : Nat
  ID : String
  uriToResource : List (String × Resource)
deriving DecidableEq, Repr

/-- An action: service and resource references (Go `*Service` and
`*Resource`, hence `Option`) and a method string. -/
structure Action where
  Service : Option Service
  Resource : Option Resource
  Method : String
deriving DecidableEq, Repr

/-- A permission: ID, action, required constraints, and the reverse set
of granting roles (recorded by role name). -/
structure Permission where
  ID : String
  Action : Action
  Constraints : Constraints
  rolesGranting : List String
deriving DecidableEq, Repr

/-- A role: name, tags, owned permission set and subrole set.  The Go
struct also holds a `Parent` back-pointer, represented here by tree
containment (see the modelling conventions above). -/
inductive Role where
  | mk (ID : String) (Tags : List (String × String))
      (Permissions : List Permission) (Subroles : List Role)

def Role.ID : Role → String
  | .mk i _ _ _ => i

def Role.Tags : Role → List (String × String)
  | .mk _ t _ _ => t

def Role.Permissions : Role → List Permission
  | .mk _ _ p _ => p

def Role.Subroles : Role → List Role
  | .mk _ _ _ s => s

/-- Add a role to a role's subrole set (`role.Subroles[sub] = struct{}{}`). -/
def Role.addSubrole : Role → Role → Role
  | .mk i t p s, sub => .mk i t p (s ++ [sub])

/-- The error kinds the loader can produce (spec §7 taxonomy restricted
to the kinds reachable from the loading paths embedded here). -/
inductive LoadError where
  | roleAlreadyExists
  | invalidIdentifier
  | invalidAction
deriving DecidableEq, Repr

/-- Modelled from the spec: `NewRole` (role.go is not among the sources)
constructs a role by identifier and "fails with `InvalidIdentifier` if
the identifier is empty or malformed" (§4.1); emptiness is the one
malformedness condition the spec pins down. -/
def NewRole (name : String) : Except LoadError Role :=
  if name = "" then .error .invalidIdentifier
  else .ok (.mk name [] [] [])

/-- Modelled from the spec: `NewService` (service.go is not among the
sources) allocates a fresh service with the given ID and an empty alias
table; `ptr` is the allocation tag. -/
def NewService (ptr : Nat) (id : String) : Service :=
  { ptr := ptr, ID := id, uriToResource := [] }

/-- Modelled from the spec: `NewResource` (resource.go is not among the
sources) allocates a fresh ("floating") resource with the given ID;
`ptr` is the allocation tag. -/
def NewResource (ptr : Nat) (id : String) : Resource :=
  { ptr := ptr, ID := id }

/-- Modelled from the spec: `newPermission` (permission.go is not among
the sources) allocates a blank permission with the given ID; the loader
then fills `Action` and `Constraints` (server.go `LoadPermissionFromJSON`).
Nothing in the sources ever populates `rolesGranting`. -/
def newPermission (id : String) : Permission :=
  { ID := id
    Action := { Service := none, Resource := none, Method := "" }
    Constraints := []
    rolesGranting := [] }

/-- The wire-format description of an action (spec §6). -/
structure ActionJSON where
  Service : String
  Resource : String
  Method : String
deriving DecidableEq, Repr

/-- The wire-format description of a permission (spec §6). -/
structure PermissionJSON where
  ID : String
  Action : ActionJSON
  Constraints : Constraints
deriving DecidableEq, Repr

/-- The wire-format description of a role subtree (spec §6). -/
inductive RoleJSON where
  | mk (ID : String) (Tags : List (String × String))
      (Permissions : List PermissionJSON) (Subroles : List RoleJSON)

def RoleJSON.ID : RoleJSON → String
  | .mk i _ _ _ => i

def RoleJSON.Tags : RoleJSON → List (String × String)
  | .mk _ t _ _ => t

def RoleJSON.Permissions : RoleJSON → List PermissionJSON
  | .mk _ _ p _ => p

def RoleJSON.Subroles : RoleJSON → List RoleJSON
  | .mk _ _ _ s => s

/-- The wire-format description of a service (spec §6). -/
structure ServiceJSON where
  ID : String
  URIsToResources : List (String × String)
deriving DecidableEq, Repr

/-- Modelled from the spec: `ActionJSON.validateFields` (action.go is not
among the sources) "fails with `InvalidAction` if service/resource/method
identifiers are missing" (§4.3). -/
def ActionJSON.validateFields (a : ActionJSON) : Except LoadError Unit :=
  if a.Service = "" || a.Resource = "" || a.Method = "" then
    .error .invalidAction
  else .ok ()

/-- The auth engine state: the root role and the four registries, plus
the allocation counter standing in for the Go heap. -/
structure AuthEngine where
  root_role : Role
  roles : List (String × Role)
  resources : List (String × Resource)
  permissions : List (String × Permission)
  services : List (String × Service)
  nextPtr : Nat

/-- `NewAuthEngine` creates a new engine with a blank role tree
(containing just the root role). -/
def NewAuthEngine : Except LoadError AuthEngine :=
  match NewRole "root" with
  | .error e => .error e
  | .ok root_role =>
      .ok { root_role := root_role
            roles := [("root", root_role)]
            resources := []
            permissions := []
            services := []
            nextPtr := 0 }

/-- The concrete fresh engine that `NewAuthEngine` produces. -/
def engine0 : AuthEngine :=
  { root_role := .mk "root" [] [] []
    roles := [("root", .mk "root" [] [] [])]
    resources := []
    permissions := []
    services := []
    nextPtr := 0 }

/-- `findResource` looks up a particular resource by ID. -/
def AuthEngine.findResource (engine : AuthEngine) (resourceID : String) :
    Option Resource :=
  engine.resources.lookup resourceID

/-- `FindRoleNamed` looks up a role with the given name. -/
def AuthEngine.FindRoleNamed (engine : AuthEngine) (ID : String) :
    Option Role :=
  engine.roles.lookup ID

/-- `findOrCreateService` looks up a service by ID, or creates it —
registering it in the engine — if it doesn't exist.  (The Go function
also returns an error value that is always nil.) -/
def findOrCreateService (engine : AuthEngine) (id : String) :
    Service × AuthEngine :=
  match engine.services.lookup id with
  | some service => (service, engine)
  | none =>
      let service := NewService engine.nextPtr id
      (service,
        { engine with
            services := mapSet engine.services id service
            nextPtr := engine.nextPtr + 1 })

/-- `findOrCreateResource` looks up the resource with ID `resourceID`,
or creates it if it doesn't exist.  Note, exactly as in the source: the
newly created resource is returned but *not* registered in
`engine.resources`. -/
def findOrCreateResource (engine : AuthEngine) (resourceID : String) :
    Resource × AuthEngine :=
  match engine.resources.lookup resourceID with
  | some resource => (resource, engine)
  | none =>
      let resource := NewResource engine.nextPtr resourceID
      (resource, { engine with nextPtr := engine.nextPtr + 1 })

/-- `actionFromJSON` loads an `Action`: validate the fields, then
find-or-create the service and the resource and assemble the action. -/
def actionFromJSON (engine : AuthEngine) (actionJSON : ActionJSON) :
    Except LoadError Action × AuthEngine :=
  match actionJSON.validateFields with
  | .error e => (.error e, engine)
  | .ok _ =>
      let (service, engine1) := findOrCreateService engine actionJSON.Service
      let (resource, engine2) := findOrCreateResource engine1 actionJSON.Resource
      (.ok { Service := some service
             Resource := some resource
             Method := actionJSON.Method }, engine2)

/-- `LoadPermissionFromJSON` constructs a permission from its wire
description.  It returns the permission; it never inserts it into
`engine.permissions`. -/
def LoadPermissionFromJSON (engine : AuthEngine)
    (permissionJSON : PermissionJSON) :
    Except LoadError Permission × AuthEngine :=
  let permission := newPermission permissionJSON.ID
  match actionFromJSON engine permissionJSON.Action with
  | (.error e, engine1) => (.error e, engine1)
  | (.ok action, engine1) =>
      (.ok { permission with
               Action := action
               Constraints := permissionJSON.Constraints }, engine1)

/-- The permission-loading loop of `recursivelyLoadRoleFromJSON`:
load each description in order, aborting on the first error (the engine
mutations already performed persist). -/
def loadPermissionList (engine : AuthEngine) :
    List PermissionJSON → Except LoadError (List Permission) × AuthEngine
  | [] => (.ok [], engine)
  | pj :: rest =>
      match LoadPermissionFromJSON engine pj with
      | (.error e, engine1) => (.error e, engine1)
      | (.ok p, engine1) =>
          match loadPermissionList engine1 rest with
          | (.error e, engine2) => (.error e, engine2)
          | (.ok ps, engine2) => (.ok (p :: ps), engine2)

mutual

/-- `recursivelyLoadRoleFromJSON`: per node, check global name
uniqueness, construct the role, copy tags, load the permissions, load
the subroles, link the subroles to the parent (represented by tree
containment), and register the node in `engine.roles`.  Registration is
per node, as in the source: nodes registered before a later failure stay
registered. -/
def recursivelyLoadRoleFromJSON (engine : AuthEngine) :
    RoleJSON → Except LoadError Role × AuthEngine
  | .mk id tags permsJSON subsJSON =>
      match engine.roles.lookup id with
      | some _ => (.error .roleAlreadyExists, engine)
      | none =>
          match NewRole id with
          | .error e => (.error e, engine)
          | .ok _ =>
              match loadPermissionList engine permsJSON with
              | (.error e, engine1) => (.error e, engine1)
              | (.ok perms, engine1) =>
                  match loadSubroleList engine1 subsJSON with
                  | (.error e, engine2) => (.error e, engine2)
                  | (.ok subs, engine2) =>
                      let role := Role.mk id tags perms subs
                      (.ok role,
                        { engine2 with
                            roles := mapSet engine2.roles id role })

/-- The subrole-loading loop of `recursivelyLoadRoleFromJSON`. -/
def loadSubroleList (engine : AuthEngine) :
    List RoleJSON → Except LoadError (List Role) × AuthEngine
  | [] => (.ok [], engine)
  | j :: rest =>
      match recursivelyLoadRoleFromJSON engine j with
      | (.error e, engine1) => (.error e, engine1)
      | (.ok r, engine1) =>
          match loadSubroleList engine1 rest with
          | (.error e, engine2) => (.error e, engine2)
          | (.ok rs, engine2) => (.ok (r :: rs), engine2)

end

/-- `addNewRootNode` records a new root-level child on the root role.
(In Go `engine.root_role` and `engine.roles["root"]` alias the same
object; the value model updates the `root_role` field, and no stated
theorem reads the registered copy's subroles.) -/
def addNewRootNode (engine : AuthEngine) (role : Role) : AuthEngine :=
  { engine with root_role := engine.root_role.addSubrole role }

/-- `LoadRoleFromJSON` inserts a role description into the engine as a
new subtree immediately under the root role. -/
def LoadRoleFromJSON (engine : AuthEngine) (roleJSON : RoleJSON) :
    Option LoadError × AuthEngine :=
  match recursivelyLoadRoleFromJSON engine roleJSON with
  | (.error e, engine1) => (some e, engine1)
  | (.ok role, engine1) => (none, addNewRootNode engine1 role)

/-- Modelled from the spec: `Role.update` (role.go is not among the
sources) merges "another role's tags, permissions, and subroles into an
existing role in place", additively only (§4.1, §4.2). -/
def Role.update : Role → Role → Role
  | .mk i t p s, .mk _ t' p' s' => .mk i (t ++ t') (p ++ p') (s ++ s')

/-- `updateRoleWithJSON` looks up an existing role by ID and appends
additional content loaded from `additionJSON`.  The lookup happens
first; the addition is loaded (mutating the engine) regardless.  If the
named role does not exist the Go code would fault calling `update` on a
nil role; the model stops after the load's mutations in that case. -/
def updateRoleWithJSON (engine : AuthEngine) (roleID : String)
    (additionJSON : RoleJSON) : Option LoadError × AuthEngine :=
  let role? := engine.FindRoleNamed roleID
  match recursivelyLoadRoleFromJSON engine additionJSON with
  | (.error e, engine1) => (some e, engine1)
  | (.ok roleAdditions, engine1) =>
      match role? with
      | none => (none, engine1)
      | some role =>
          (none,
            { engine1 with
                roles := mapSet engine1.roles roleID
                  (role.update roleAdditions) })

/-- The URI-alias loop of `LoadServiceFromJSON`: find-or-create every
aliased resource and record it in the service's alias table. -/
def loadServiceURIs (engine : AuthEngine) (service : Service) :
    List (String × String) → Service × AuthEngine
  | [] => (service, engine)
  | (uri, resource_name) :: rest =>
      let (resource, engine1) := findOrCreateResource engine resource_name
      loadServiceURIs engine1
        { service with
            uriToResource := mapSet service.uriToResource uri resource }
        rest

/-- `LoadServiceFromJSON` builds a fresh service from its description,
populating its alias table, and registers it in `engine.services`. -/
def LoadServiceFromJSON (engine : AuthEngine) (serviceJSON : ServiceJSON) :
    Except LoadError Service × AuthEngine :=
  let service := NewService engine.nextPtr serviceJSON.ID
  let enginea := { engine with nextPtr := engine.nextPtr + 1 }
  let (service1, engine1) :=
    loadServiceURIs enginea service serviceJSON.URIsToResources
  (.ok service1,
    { engine1 with
        services := mapSet engine1.services service1.ID service1 })

/-- The authorization request as the engine consumes it (`authRequest`):
the roles held by the requester, the requested action, and the offered
constraints.  The `Action.Resource` reference is a Go pointer that is
only filled in by `ParseRequest`'s lookup, hence the `Option` inside
`Action`. -/
structure authRequest where
  Roles : List Role
  Action : Action
  Constraints : Constraints

/-- The authorization decision issued by the engine (`authResponse`). -/
structure authResponse where
  Auth : Bool
  Role_ID : Option String
  PermissionGranting : Option Permission
  PermissionsMismatching : List Permission
deriving DecidableEq, Repr

mutual

/-- Modelled from the spec: the flattened permission contents of a
role's full subtree, own permissions first, descendants depth-first
(traversal order within a subtree is unspecified, §4.4; no theorem
below depends on the order beyond one fixed enumeration). -/
def Role.subtreePermissions : Role → List Permission
  | .mk _ _ perms subs => perms ++ subtreePermissionsList subs

/-- The list version of `Role.subtreePermissions`. -/
def subtreePermissionsList : List Role → List Permission
  | [] => []
  | r :: rs => r.subtreePermissions ++ subtreePermissionsList rs

end

/-- Modelled from the spec: resource match — "either by exact path
equality or by the requested resource path being the same as or a
descendant of (hierarchical extension under) the permission's resource
path" (§4.4). -/
def resourcePathMatches (permissionPath requestedPath : String) : Bool :=
  permissionPath == requestedPath
    || requestedPath.startsWith (permissionPath ++ "/")

/-- Modelled from the spec: action match — "`Service` identifiers equal,
`Method` strings equal", resources matched hierarchically (§4.4).  A nil
service or resource reference on either side cannot match. -/
def actionMatches (permissionAction requestedAction : Action) : Bool :=
  match permissionAction.Service, requestedAction.Service,
        permissionAction.Resource, requestedAction.Resource with
  | some ps, some rs, some pr, some rr =>
      ps.ID == rs.ID
        && permissionAction.Method == requestedAction.Method
        && resourcePathMatches pr.ID rr.ID
  | _, _, _, _ => false

/-- Modelled from the spec: constraint satisfaction — "every key in the
Permission's Constraints mapping must be present in the request's
Constraints mapping with an equal value; extra keys offered by the
request ... are ignored" (§4.4). -/
def constraintsSatisfied (required offered : Constraints) : Bool :=
  required.all (fun kv => offered.lookup kv.1 == some kv.2)

/-- A permission grants the requested action under the offered
constraints. -/
def permissionSatisfies (p : Permission) (action : Action)
    (constraints : Constraints) : Bool :=
  actionMatches p.Action action
    && constraintsSatisfied p.Constraints constraints

/-- A permission's action matches but its constraints fail: recorded as
"mismatching" (§4.4). -/
def permissionMismatches (p : Permission) (action : Action)
    (constraints : Constraints) : Bool :=
  actionMatches p.Action action
    && !constraintsSatisfied p.Constraints constraints

/-- Modelled from the spec: `Role.validate` (role.go is not among the
sources) — whether "that role's own permission set, or any permission
set in its full descendant subtree, contains a Permission whose Action
matches the requested Action and whose Constraints are satisfied"; on
success it reports the first satisfying permission found, on failure the
mismatching permissions found across the subtree (§4.4). -/
def Role.validate (role : Role) (action : Action)
    (constraints : Constraints) : authResponse :=
  let subtree := role.subtreePermissions
  match subtree.find? (fun p => permissionSatisfies p action constraints) with
  | some p =>
      { Auth := true, Role_ID := none, PermissionGranting := some p
        PermissionsMismatching := [] }
  | none =>
      { Auth := false, Role_ID := none, PermissionGranting := none
        PermissionsMismatching :=
          subtree.filter (fun p => permissionMismatches p action constraints) }

/-- The role slice `CheckAuth` builds: `make([]*Role, n)` produces `n`
nil entries, and the loop over `engine.root_role.Subroles` then appends
the actual top-level roles after them. -/
def rolesSlice (engine : AuthEngine) : List (Option Role) :=
  List.replicate engine.root_role.Subroles.length none
    ++ engine.root_role.Subroles.map some

/-- The count `CheckAuth` passes to `wg.Add`: the length of the slice it
built (`len(roles)`). -/
def wgCount (engine : AuthEngine) : Nat :=
  (rolesSlice engine).length

/-- The response a single evaluation task writes to the response channel,
if any: a task whose role permits the action publishes `Auth:true` with
the role's name and the granting permission.  A nil slice entry's task
dereferences the nil role pointer inside `validate` and publishes
nothing (the structural facts about the nil entries are stated
separately over `rolesSlice`). -/
def entryChannelResponse (entry : Option Role) (action : Action)
    (constraints : Constraints) : Option authResponse :=
  match entry with
  | none => none
  | some role =>
      let role_response := role.validate action constraints
      if role_response.Auth then
        some { Auth := true
               Role_ID := some role.ID
               PermissionGranting := role_response.PermissionGranting
               PermissionsMismatching := [] }
      else none

/-- The contribution a single evaluation task appends to the default
response's mismatching-permission list when its role does not permit the
action.  A nil slice entry contributes nothing (see
`entryChannelResponse`). -/
def entryMismatching (entry : Option Role) (action : Action)
    (constraints : Constraints) : List Permission :=
  match entry with
  | none => []
  | some role =>
      let role_response := role.validate action constraints
      if role_response.Auth then [] else role_response.PermissionsMismatching

/-- `CheckAuth`: fan out one evaluation task per slice entry; if any
task publishes a positive response, return it; otherwise, once every
task has finished, return the default deny response carrying the
concatenation of all mismatching permissions.  The Go code races the
tasks and returns whichever positive response is published first; the
deterministic embedding picks the first positive entry in slice order,
and no theorem below distinguishes one winner from another beyond that
choice. -/
def CheckAuth (engine : AuthEngine) (request : authRequest) : authResponse :=
  let roles := rolesSlice engine
  let positives := roles.filterMap
    (fun entry => entryChannelResponse entry request.Action request.Constraints)
  match positives with
  | response :: _ => response
  | [] =>
      { Auth := false, Role_ID := none, PermissionGranting := none
        PermissionsMismatching :=
          (roles.map (fun entry =>
            entryMismatching entry request.Action request.Constraints)).flatten }

/-- The outcome of `json.Unmarshal` on an authorization request body
(the Go standard library is outside the sources): the error value it
returned, if any, and the request struct as (possibly partially) filled.
Per the note on `authRequest` in the source, unmarshalling does not
resolve the `Action.Resource` reference against the engine; a body whose
action carries no resource reference leaves it nil (`none`). -/
structure UnmarshalResult where
  err : Option String
  request : authRequest

/-- A runtime fault of the Go program. -/
inductive RuntimeFault where
  | nilDereference
deriving DecidableEq, Repr

/-- `ParseRequest`: unmarshal, then read `request.Action.Resource.ID`
— a nil dereference when the unmarshalled action holds no resource
reference — then overwrite the resource reference with the engine's
lookup result (possibly nil) and return the request together with the
unmarshal error, whether or not that error was nil. -/
def ParseRequest (engine : AuthEngine) (unmarshalled : UnmarshalResult) :
    Except RuntimeFault (authRequest × Option String) :=
  let request := unmarshalled.request
  match request.Action.Resource with
  | none => .error .nilDereference
  | some res =>
      let resourceID := res.ID
      let request1 :=
        { request with
            Action :=
              { request.Action with
                  Resource := engine.findResource resourceID } }
      .ok (request1, unmarshalled.err)

/-- Stated from the claim's words, for comparison with `CheckAuth`: a
request authorizes when "at least one role in `{R1..Rn}` [the request's
role set] or any of their descendants holds a matching Permission". -/
def requestFanOutAuth (request : authRequest) : Bool :=
  request.Roles.any
    (fun role => (role.validate request.Action request.Constraints).Auth)

mutual

/-- Whether some node of a role description carries an ID already bound
in the given role index. -/
def containsExistingID (m : List (String × Role)) : RoleJSON → Bool
  | .mk id _ _ subs =>
      (m.lookup id).isSome || containsExistingIDList m subs

/-- The list version of `containsExistingID`. -/
def containsExistingIDList (m : List (String × Role)) :
    List RoleJSON → Bool
  | [] => false
  | j :: rest => containsExistingID m j || containsExistingIDList m rest

end

mutual

/-- Every node of a role description passes the per-node validations
other than the duplicate-name check: nonempty identifier and well-formed
permission actions. -/
def RoleJSON.wellFormed : RoleJSON → Bool
  | .mk id _ perms subs =>
      (!(id == ""))
        && perms.all (fun pj =>
            !(pj.Action.Service == "") && !(pj.Action.Resource == "")
              && !(pj.Action.Method == ""))
        && wellFormedList subs

/-- The list version of `RoleJSON.wellFormed`. -/
def wellFormedList : List RoleJSON → Bool
  | [] => true
  | j :: rest => j.wellFormed && wellFormedList rest

end

/-- One load-path operation of the engine API. -/
inductive LoadOp where
  | loadRole (j : RoleJSON)
  | updateRole (id : String) (j : RoleJSON)
  | loadService (j : ServiceJSON)
  | loadPermission (j : PermissionJSON)

/-- Run one load operation for its effect on the engine state. -/
def applyOp (engine : AuthEngine) : LoadOp → AuthEngine
  | .loadRole j => (LoadRoleFromJSON engine j).2
  | .updateRole id j => (updateRoleWithJSON engine id j).2
  | .loadService j => (LoadServiceFromJSON engine j).2
  | .loadPermission j => (LoadPermissionFromJSON engine j).2

/-- Run a sequence of load operations. -/
def applyOps (engine : AuthEngine) : List LoadOp → AuthEngine
  | [] => engine
  | op :: ops => applyOps (applyOp engine op) ops

/-- `dropPermissionIfOrphaned` removes a permission from the registry
when no roles grant it any longer.  (Nothing among the sources ever
calls it.) -/
def dropPermissionIfOrphaned (engine : AuthEngine)
    (permission : Permission) : AuthEngine :=
  if permission.rolesGranting.length = 0 then
    { engine with permissions := mapDel engine.permissions permission.ID }
  else engine

/-- One role index extends another: every name bound in the first is
still bound in the second. -/
def rolesGrow (m m' : List (String × Role)) : Prop :=
  ∀ id : String, ((m.lookup id).isSome = true) →
    ((m'.lookup id).isSome = true)

/-- A concrete permission description: action `read` on resource `/r`
via service `svc`, requiring the constraint `env = prod`. -/
def permJSON1 : PermissionJSON :=
  { ID := "p"
    Action := { Service := "svc", Resource := "/r", Method := "read" }
    Constraints := [("env", "prod")] }

/-- A concrete role description: top-level role `A` holding
`permJSON1`. -/
def roleJSON1 : RoleJSON :=
  .mk "A" [] [permJSON1] []

/-- The engine obtained by loading `roleJSON1` into a fresh engine. -/
def engineLoaded : AuthEngine :=
  (LoadRoleFromJSON engine0 roleJSON1).2

/-- A concrete request whose action role `A`'s permission grants, but
whose role set is empty. -/
def requestGrant : authRequest :=
  { Roles := []
    Action := { Service := some { ptr := 0, ID := "svc", uriToResource := [] }
                Resource := some { ptr := 0, ID := "/r" }
                Method := "read" }
    Constraints := [("env", "prod")] }

/-- A concrete request whose action matches role `A`'s permission but
whose offered constraints do not satisfy it. -/
def requestDeny : authRequest :=
  { Roles := []
    Action := { Service := some { ptr := 0, ID := "svc", uriToResource := [] }
                Resource := some { ptr := 0, ID := "/r" }
                Method := "read" }
    Constraints := [] }

/-- A role description whose subtree fails validation at its last node:
`A` with subroles `B` (valid) and `root` (name collision). -/
def roleJSONPartial : RoleJSON :=
  .mk "A" [] [] [.mk "B" [] [] [], .mk "root" [] [] []]

/-- A role description containing a node (`root`) whose ID already
exists, but whose first processed failure is a malformed permission
action on the ancestor node `A`. -/
def roleJSONDupAfterBadAction : RoleJSON :=
  .mk "A" []
    [{ ID := "p"
       Action := { Service := "", Resource := "/r", Method := "read" }
       Constraints := [] }]
    [.mk "root" [] [] []]

/-- A well-formed role description containing a node (`root`) whose ID
already exists. -/
def roleJSONDupOnly : RoleJSON :=
  .mk "X" [] [] [.mk "root" [] [] []]

/-- The unmarshal outcome of the body `{}`: no error, zero-valued
request, in particular a nil `Action.Resource`. -/
def unmarshalledEmptyBody : UnmarshalResult :=
  { err := none
    request :=
      { Roles := []
        Action := { Service := none, Resource := none, Method := "" }
        Constraints := [] } }

/-- An unmarshal outcome carrying a resource reference whose ID no
engine resource resolves. -/
def unmarshalledUnknownResource : UnmarshalResult :=
  { err := none
    request :=
      { Roles := []
        Action := { Service := none
                    Resource := some { ptr := 0, ID := "/nowhere" }
                    Method := "read" }
        Constraints := [] } }

/-- An unmarshal outcome in which `json.Unmarshal` reported an error and
left a partially filled request behind. -/
def unmarshalledFailed : UnmarshalResult :=
  { err := some "unexpected end of JSON input"
    request :=
      { Roles := []
        Action := { Service := none
                    Resource := some { ptr := 0, ID := "/partial" }
                    Method := "" }
        Constraints := [] } }

/-! ## Helper lemmas -/

theorem lookup_cons_isSome {α : Type} (m : List (String × α)) (k k' : String)
    (v : α) (h : (m.lookup k').isSome = true) :
    (((k, v) :: m).lookup k').isSome = true := by
  simp only [List.lookup]
  cases hkk : k' == k <;> simp [h]

theorem rolesGrow_refl (m : List (String × Role)) : rolesGrow m m :=
  fun _ h => h

theorem rolesGrow_trans {m₁ m₂ m₃ : List (String × Role)}
    (h₁ : rolesGrow m₁ m₂) (h₂ : rolesGrow m₂ m₃) : rolesGrow m₁ m₃ :=
  fun id h => h₂ id (h₁ id h)

theorem rolesGrow_mapSet (m : List (String × Role)) (k : String) (v : Role) :
    rolesGrow m (mapSet m k v) :=
  fun id h => lookup_cons_isSome m k id v h

theorem findOrCreateService_roles (engine : AuthEngine) (id : String) :
    ((findOrCreateService engine id).2).roles = engine.roles := by
  unfold findOrCreateService
  split <;> rfl

theorem findOrCreateService_permissions (engine : AuthEngine) (id : String) :
    ((findOrCreateService engine id).2).permissions = engine.permissions := by
  unfold findOrCreateService
  split <;> rfl

theorem findOrCreateResource_roles (engine : AuthEngine) (id : String) :
    ((findOrCreateResource engine id).2).roles = engine.roles := by
  unfold findOrCreateResource
  split <;> rfl

theorem findOrCreateResource_permissions (engine : AuthEngine) (id : String) :
    ((findOrCreateResource engine id).2).permissions = engine.permissions := by
  unfold findOrCreateResource
  split <;> rfl

theorem actionFromJSON_roles (engine : AuthEngine) (a : ActionJSON) :
    ((actionFromJSON engine a).2).roles = engine.roles := by
  unfold actionFromJSON
  split
  · rfl
  · rw [findOrCreateResource_roles, findOrCreateService_roles]

theorem actionFromJSON_permissions (engine : AuthEngine) (a : ActionJSON) :
    ((actionFromJSON engine a).2).permissions = engine.permissions := by
  unfold actionFromJSON
  split
  · rfl
  · rw [findOrCreateResource_permissions, findOrCreateService_permissions]

theorem loadPermissionFromJSON_roles (engine : AuthEngine)
    (pj : PermissionJSON) :
    ((LoadPermissionFromJSON engine pj).2).roles = engine.roles := by
  unfold LoadPermissionFromJSON
  split <;>
    (rename_i h
     have := actionFromJSON_roles engine pj.Action
     rw [h] at this
     exact this)

theorem loadPermissionFromJSON_permissions (engine : AuthEngine)
    (pj : PermissionJSON) :
    ((LoadPermissionFromJSON engine pj).2).permissions = engine.permissions := by
  unfold LoadPermissionFromJSON
  split <;>
    (rename_i h
     have := actionFromJSON_permissions engine pj.Action
     rw [h] at this
     exact this)

theorem loadPermissionList_roles (engine : AuthEngine)
    (pjs : List PermissionJSON) :
    ((loadPermissionList engine pjs).2).roles = engine.roles := by
  induction pjs generalizing engine with
  | nil => rfl
  | cons pj rest ih =>
      unfold loadPermissionList
      split
      · rename_i h
        have := loadPermissionFromJSON_roles engine pj
        rw [h] at this
        exact this
      · rename_i e1 h
        have h1 := loadPermissionFromJSON_roles engine pj
        rw [h] at h1
        split
        · rename_i h2
          have h3 := ih e1
          rw [h2] at h3
          exact h3.trans h1
        · rename_i h2
          have h3 := ih e1
          rw [h2] at h3
          exact h3.trans h1

theorem loadPermissionList_permissions (engine : AuthEngine)
    (pjs : List PermissionJSON) :
    ((loadPermissionList engine pjs).2).permissions = engine.permissions := by
  induction pjs generalizing engine with
  | nil => rfl
  | cons pj rest ih =>
      unfold loadPermissionList
      split
      · rename_i h
        have := loadPermissionFromJSON_permissions engine pj
        rw [h] at this
        exact this
      · rename_i e1 h
        have h1 := loadPermissionFromJSON_permissions engine pj
        rw [h] at h1
        split
        · rename_i h2
          have h3 := ih e1
          rw [h2] at h3
          exact h3.trans h1
        · rename_i h2
          have h3 := ih e1
          rw [h2] at h3
          exact h3.trans h1

mutual

theorem recLoad_permissions (engine : AuthEngine) (j : RoleJSON) :
    ((recursivelyLoadRoleFromJSON engine j).2).permissions
      = engine.permissions := by
  match j with
  | .mk id tags permsJSON subsJSON =>
    unfold recursivelyLoadRoleFromJSON
    split
    · rfl
    · split
      · rfl
      · split
        · rename_i h
          have := loadPermissionList_permissions engine permsJSON
          rw [h] at this
          exact this
        · rename_i e1 h
          have h1 := loadPermissionList_permissions engine permsJSON
          rw [h] at h1
          split
          · rename_i h2
            have h3 := loadSubs_permissions e1 subsJSON
            rw [h2] at h3
            exact h3.trans h1
          · rename_i h2
            have h3 := loadSubs_permissions e1 subsJSON
            rw [h2] at h3
            exact h3.trans h1

theorem loadSubs_permissions (engine : AuthEngine) (js : List RoleJSON) :
    ((loadSubroleList engine js).2).permissions = engine.permissions := by
  match js with
  | [] => rfl
  | j :: rest =>
    unfold loadSubroleList
    split
    · rename_i h
      have := recLoad_permissions engine j
      rw [h] at this
      exact this
    · rename_i e1 h
      have h1 := recLoad_permissions engine j
      rw [h] at h1
      split
      · rename_i h2
        have h3 := loadSubs_permissions e1 rest
        rw [h2] at h3
        exact h3.trans h1
      · rename_i h2
        have h3 := loadSubs_permissions e1 rest
        rw [h2] at h3
        exact h3.trans h1

end

mutual

theorem recLoad_roles_grow (engine : AuthEngine) (j : RoleJSON) :
    rolesGrow engine.roles ((recursivelyLoadRoleFromJSON engine j).2).roles := by
  match j with
  | .mk id tags permsJSON subsJSON =>
    unfold recursivelyLoadRoleFromJSON
    split
    · exact rolesGrow_refl _
    · split
      · exact rolesGrow_refl _
      · split
        · rename_i h
          have := loadPermissionList_roles engine permsJSON
          rw [h] at this
          rw [this]
          exact rolesGrow_refl _
        · rename_i e1 h
          have h1 := loadPermissionList_roles engine permsJSON
          rw [h] at h1
          split
          · rename_i h2
            have h3 := loadSubs_roles_grow e1 subsJSON
            rw [h2] at h3
            rw [h1] at h3
            exact h3
          · rename_i e2 h2
            have h3 := loadSubs_roles_grow e1 subsJSON
            rw [h2] at h3
            rw [h1] at h3
            exact rolesGrow_trans h3 (rolesGrow_mapSet _ _ _)

theorem loadSubs_roles_grow (engine : AuthEngine) (js : List RoleJSON) :
    rolesGrow engine.roles ((loadSubroleList engine js).2).roles := by
  match js with
  | [] => exact rolesGrow_refl _
  | j :: rest =>
    unfold loadSubroleList
    split
    · rename_i h
      have := recLoad_roles_grow engine j
      rw [h] at this
      exact this
    · rename_i e1 h
      have h1 := recLoad_roles_grow engine j
      rw [h] at h1
      split
      · rename_i h2
        have h3 := loadSubs_roles_grow e1 rest
        rw [h2] at h3
        exact rolesGrow_trans h1 h3
      · rename_i h2
        have h3 := loadSubs_roles_grow e1 rest
        rw [h2] at h3
        exact rolesGrow_trans h1 h3

end

mutual

theorem containsExistingID_mono {m m' : List (String × Role)}
    (h : rolesGrow m m') (j : RoleJSON)
    (hc : containsExistingID m j = true) :
    containsExistingID m' j = true := by
  match j with
  | .mk id tags permsJSON subsJSON =>
    unfold containsExistingID at hc ⊢
    rw [Bool.or_eq_true] at hc ⊢
    cases hc with
    | inl hl => exact Or.inl (h id hl)
    | inr hr => exact Or.inr (containsExistingIDList_mono h subsJSON hr)

theorem containsExistingIDList_mono {m m' : List (String × Role)}
    (h : rolesGrow m m') (js : List RoleJSON)
    (hc : containsExistingIDList m js = true) :
    containsExistingIDList m' js = true := by
  match js with
  | [] => exact hc
  | j :: rest =>
    unfold containsExistingIDList at hc ⊢
    rw [Bool.or_eq_true] at hc ⊢
    cases hc with
    | inl hl => exact Or.inl (containsExistingID_mono h j hl)
    | inr hr => exact Or.inr (containsExistingIDList_mono h rest hr)

end

mutual

theorem recLoad_contains_fails (engine : AuthEngine) (j : RoleJSON)
    (hc : containsExistingID engine.roles j = true) :
    ∃ err, (recursivelyLoadRoleFromJSON engine j).1 = .error err := by
  match j with
  | .mk id tags permsJSON subsJSON =>
    unfold recursivelyLoadRoleFromJSON
    split
    · exact ⟨_, rfl⟩
    · rename_i hlk
      unfold containsExistingID at hc
      rw [hlk] at hc
      simp only [Option.isSome_none, Bool.false_or] at hc
      split
      · exact ⟨_, rfl⟩
      · rename_i role0 hnew
        split
        · exact ⟨_, rfl⟩
        · rename_i ps e1 hperm
          have hroles := loadPermissionList_roles engine permsJSON
          rw [hperm] at hroles
          have hc1 : containsExistingIDList e1.roles subsJSON = true := by
            rw [hroles]
            exact hc
          have hfail := loadSubs_contains_fails e1 subsJSON hc1
          split
          · exact ⟨_, rfl⟩
          · rename_i rs e2 hsub
            rw [hsub] at hfail
            obtain ⟨err, herr⟩ := hfail
            exact absurd herr (by simp)

theorem loadSubs_contains_fails (engine : AuthEngine) (js : List RoleJSON)
    (hc : containsExistingIDList engine.roles js = true) :
    ∃ err, (loadSubroleList engine js).1 = .error err := by
  match js with
  | [] => exact absurd hc (by simp [containsExistingIDList])
  | j :: rest =>
    unfold containsExistingIDList at hc
    rw [Bool.or_eq_true] at hc
    unfold loadSubroleList
    split
    · exact ⟨_, rfl⟩
    · rename_i r e1 hload
      cases hc with
      | inl hl =>
          have := recLoad_contains_fails engine j hl
          rw [hload] at this
          obtain ⟨err, herr⟩ := this
          exact absurd herr (by simp)
      | inr hr =>
          have hgrow := recLoad_roles_grow engine j
          rw [hload] at hgrow
          have hc1 := containsExistingIDList_mono hgrow rest hr
          have hfail := loadSubs_contains_fails e1 rest hc1
          split
          · exact ⟨_, rfl⟩
          · rename_i rs e2 hsub
            rw [hsub] at hfail
            obtain ⟨err, herr⟩ := hfail
            exact absurd herr (by simp)

end

theorem validateFields_ok_of_nonempty (a : ActionJSON)
    (h1 : ¬(a.Service = "")) (h2 : ¬(a.Resource = ""))
    (h3 : ¬(a.Method = "")) : a.validateFields = .ok () := by
  simp [ActionJSON.validateFields, h1, h2, h3]

theorem loadPermissionFromJSON_ok_of_valid (engine : AuthEngine)
    (pj : PermissionJSON) (h1 : ¬(pj.Action.Service = ""))
    (h2 : ¬(pj.Action.Resource = "")) (h3 : ¬(pj.Action.Method = "")) :
    ∃ p engine', LoadPermissionFromJSON engine pj = (.ok p, engine') := by
  unfold LoadPermissionFromJSON actionFromJSON
  rw [validateFields_ok_of_nonempty pj.Action h1 h2 h3]
  exact ⟨_, _, rfl⟩

theorem loadPermissionList_ok_of_wellFormed (engine : AuthEngine)
    (pjs : List PermissionJSON)
    (h : pjs.all (fun pj =>
        !(pj.Action.Service == "") && !(pj.Action.Resource == "")
          && !(pj.Action.Method == "")) = true) :
    ∃ ps engine', loadPermissionList engine pjs = (.ok ps, engine') := by
  induction pjs generalizing engine with
  | nil => exact ⟨[], engine, rfl⟩
  | cons pj rest ih =>
      rw [List.all_cons, Bool.and_eq_true] at h
      obtain ⟨hhead, hrest⟩ := h
      simp at hhead
      obtain ⟨⟨h1, h2⟩, h3⟩ := hhead
      obtain ⟨p, e1, hp⟩ := loadPermissionFromJSON_ok_of_valid engine pj h1 h2 h3
      obtain ⟨ps, e2, hps⟩ := ih e1 hrest
      exact ⟨p :: ps, e2, by simp [loadPermissionList, hp, hps]⟩

mutual

theorem recLoad_wellFormed_kind (engine : AuthEngine) (j : RoleJSON)
    (hw : j.wellFormed = true) :
    ∀ err, (recursivelyLoadRoleFromJSON engine j).1 = .error err →
      err = .roleAlreadyExists := by
  match j with
  | .mk id tags permsJSON subsJSON =>
    unfold RoleJSON.wellFormed at hw
    rw [Bool.and_eq_true, Bool.and_eq_true] at hw
    obtain ⟨⟨hid, hperms⟩, hsubs⟩ := hw
    unfold recursivelyLoadRoleFromJSON
    split
    · intro err herr
      injection herr with h
      exact h.symm
    · rename_i hlk
      split
      · rename_i e hnew
        exfalso
        simp at hid
        simp [NewRole, hid] at hnew
      · rename_i role0 hnew
        split
        · rename_i e e1 hperm
          exfalso
          obtain ⟨ps, e2, hok⟩ :=
            loadPermissionList_ok_of_wellFormed engine permsJSON hperms
          rw [hok] at hperm
          simp at hperm
        · rename_i ps e1 hperm
          split
          · rename_i e e2 hsub
            intro err herr
            injection herr with h
            subst h
            have := loadSubs_wellFormed_kind e1 subsJSON hsubs
            rw [hsub] at this
            exact this e rfl
          · rename_i rs e2 hsub
            intro err herr
            exact absurd herr (by simp)

theorem loadSubs_wellFormed_kind (engine : AuthEngine) (js : List RoleJSON)
    (hw : wellFormedList js = true) :
    ∀ err, (loadSubroleList engine js).1 = .error err →
      err = .roleAlreadyExists := by
  match js with
  | [] =>
      intro err herr
      exact absurd herr (by simp [loadSubroleList])
  | j :: rest =>
      unfold wellFormedList at hw
      rw [Bool.and_eq_true] at hw
      obtain ⟨hj, hrest⟩ := hw
      unfold loadSubroleList
      split
      · rename_i e e1 hload
        intro err herr
        injection herr with h
        subst h
        have := recLoad_wellFormed_kind engine j hj
        rw [hload] at this
        exact this e rfl
      · rename_i r e1 hload
        split
        · rename_i e e2 hsub
          intro err herr
          injection herr with h
          subst h
          have := loadSubs_wellFormed_kind e1 rest hrest
          rw [hsub] at this
          exact this e rfl
        · rename_i rs e2 hsub
          intro err herr
          exact absurd herr (by simp)

end

theorem loadServiceURIs_permissions (uris : List (String × String))
    (engine : AuthEngine) (service : Service) :
    ((loadServiceURIs engine service uris).2).permissions
      = engine.permissions := by
  induction uris generalizing engine service with
  | nil => rfl
  | cons uv rest ih =>
      unfold loadServiceURIs
      rw [ih]
      exact findOrCreateResource_permissions engine uv.2

theorem loadServiceFromJSON_permissions (engine : AuthEngine)
    (sj : ServiceJSON) :
    ((LoadServiceFromJSON engine sj).2).permissions = engine.permissions := by
  unfold LoadServiceFromJSON
  exact loadServiceURIs_permissions sj.URIsToResources _ _

theorem loadRoleFromJSON_permissions (engine : AuthEngine) (j : RoleJSON) :
    ((LoadRoleFromJSON engine j).2).permissions = engine.permissions := by
  unfold LoadRoleFromJSON
  split
  · rename_i e e1 h
    have := recLoad_permissions engine j
    rw [h] at this
    exact this
  · rename_i r e1 h
    have := recLoad_permissions engine j
    rw [h] at this
    exact this

theorem updateRoleWithJSON_permissions (engine : AuthEngine) (roleID : String)
    (j : RoleJSON) :
    ((updateRoleWithJSON engine roleID j).2).permissions
      = engine.permissions := by
  unfold updateRoleWithJSON
  split
  · rename_i e e1 h
    have := recLoad_permissions engine j
    rw [h] at this
    exact this
  · rename_i r e1 h
    have := recLoad_permissions engine j
    rw [h] at this
    cases hf : engine.FindRoleNamed roleID <;> simp only [hf] <;> exact this

theorem applyOp_permissions (engine : AuthEngine) (op : LoadOp) :
    (applyOp engine op).permissions = engine.permissions := by
  cases op with
  | loadRole j => exact loadRoleFromJSON_permissions engine j
  | updateRole id j => exact updateRoleWithJSON_permissions engine id j
  | loadService j => exact loadServiceFromJSON_permissions engine j
  | loadPermission j => exact loadPermissionFromJSON_permissions engine j

theorem applyOps_permissions (ops : List LoadOp) (engine : AuthEngine) :
    (applyOps engine ops).permissions = engine.permissions := by
  induction ops generalizing engine with
  | nil => rfl
  | cons op rest ih =>
      unfold applyOps
      exact (ih (applyOp engine op)).trans (applyOp_permissions engine op)

theorem filterMap_entry_replicate (n : Nat) (a : Action) (c : Constraints) :
    (List.replicate n (none : Option Role)).filterMap
      (fun entry => entryChannelResponse entry a c) = [] := by
  induction n with
  | zero => rfl
  | succ k ih =>
      rw [List.replicate_succ, List.filterMap_cons]
      simp only [entryChannelResponse]
      exact ih

theorem flatten_map_entry_replicate (n : Nat) (a : Action) (c : Constraints) :
    (((List.replicate n (none : Option Role)).map
      (fun entry => entryMismatching entry a c)).flatten) = [] := by
  induction n with
  | zero => rfl
  | succ k ih =>
      rw [List.replicate_succ, List.map_cons, List.flatten_cons]
      simp only [entryMismatching]
      rw [List.nil_append]
      exact ih

theorem positives_auth_aux (rs : List Role) (a : Action) (c : Constraints) :
    (match rs.filterMap (fun r => entryChannelResponse (some r) a c) with
     | resp :: _ => resp.Auth
     | [] => false)
      = rs.any (fun r => (r.validate a c).Auth) := by
  induction rs with
  | nil => rfl
  | cons r rest ih =>
      rw [List.filterMap_cons, List.any_cons]
      cases hr : (r.validate a c).Auth
      · simp only [entryChannelResponse, hr, Bool.false_or, if_false]
        exact ih
      · simp [entryChannelResponse, hr]

theorem positives_nil_of_all_deny (rs : List Role) (a : Action)
    (c : Constraints)
    (hall : rs.all (fun r => !(r.validate a c).Auth) = true) :
    rs.filterMap (fun r => entryChannelResponse (some r) a c) = [] := by
  induction rs with
  | nil => rfl
  | cons r rest ih =>
      rw [List.all_cons, Bool.and_eq_true] at hall
      obtain ⟨hr, hrest⟩ := hall
      rw [Bool.not_eq_true'] at hr
      rw [List.filterMap_cons]
      simp only [entryChannelResponse, hr, if_false]
      exact ih hrest

/-! ## Claim theorems -/

/-- Claim C1, counterexample: `CheckAuth` does not evaluate the roles
named in the request's role set.  On a concrete engine holding one
top-level role with a matching permission, a request naming *no* roles
at all still comes back `Auth:true`, while the claim's fan-out rule over
the request's role set says `Auth:false`. -/
theorem checkAuth_ignores_request_roles_cex :
    requestGrant.Roles = [] ∧
    (CheckAuth engineLoaded requestGrant).Auth = true ∧
    requestFanOutAuth requestGrant = false :=
  ⟨rfl, by decide, by decide⟩

/-- Claim C1, amended: `CheckAuth` evaluates the engine's top-level
roles (the root role's subroles, each through its full descendant
subtree via `validate`), ignoring the request's role set, and returns
`Auth:true` iff at least one of them reports a matching permission. -/
theorem checkAuth_fanout_amended (engine : AuthEngine)
    (request : authRequest) :
    (CheckAuth engine request).Auth
      = engine.root_role.Subroles.any
          (fun role =>
            (role.validate request.Action request.Constraints).Auth) := by
  unfold CheckAuth rolesSlice
  dsimp only
  rw [List.filterMap_append, filterMap_entry_replicate, List.nil_append,
    List.filterMap_map]
  simp only [Function.comp_def]
  have haux := positives_auth_aux engine.root_role.Subroles
    request.Action request.Constraints
  cases hp : engine.root_role.Subroles.filterMap
      (fun r => entryChannelResponse (some r)
        request.Action request.Constraints) with
  | nil =>
      rw [hp] at haux
      exact haux
  | cons resp rest =>
      rw [hp] at haux
      exact haux

/-- Claim C2: loading a subtree is not atomic.  Loading the description
`A(subroles: B, root)` into a fresh engine fails with
`RoleAlreadyExists` on the node `root`, yet the individually-valid
sibling `B` remains registered in the engine's role index afterward
(while `A` itself does not). -/
theorem load_partial_failure_leaves_subtree_visible :
    (LoadRoleFromJSON engine0 roleJSONPartial).1
        = some .roleAlreadyExists ∧
    ((LoadRoleFromJSON engine0 roleJSONPartial).2.roles.lookup "B").isSome
        = true ∧
    ((LoadRoleFromJSON engine0 roleJSONPartial).2.roles.lookup "A").isSome
        = false := by
  refine ⟨by decide, by decide, by decide⟩

/-- Claim C3: find-or-create is idempotent for services but not for
resources.  Two `findOrCreateService` calls for the same absent ID
return the identical shared object, but `findOrCreateResource` never
registers the resource it creates, so a second call for the same ID
allocates a distinct object and the registry still has no entry. -/
theorem findOrCreate_identity_bug :
    (findOrCreateService engine0 "s").1
        = (findOrCreateService (findOrCreateService engine0 "s").2 "s").1 ∧
    (findOrCreateResource engine0 "x").1
        ≠ (findOrCreateResource (findOrCreateResource engine0 "x").2 "x").1 ∧
    ((findOrCreateResource
        (findOrCreateResource engine0 "x").2 "x").2.resources.lookup "x")
        = none := by
  refine ⟨by decide, by decide, by decide⟩

/-- Claim C4: when no evaluated top-level role (through its full
subtree) reports a matching permission, `CheckAuth` returns the deny
response: `Auth:false`, no granting role, no granting permission, and
the concatenation of every evaluated role's mismatching permissions. -/
theorem checkAuth_deny_aggregation (engine : AuthEngine)
    (request : authRequest)
    (hall : engine.root_role.Subroles.all
        (fun role =>
          !(role.validate request.Action request.Constraints).Auth)
        = true) :
    CheckAuth engine request =
      { Auth := false, Role_ID := none, PermissionGranting := none
        PermissionsMismatching :=
          (engine.root_role.Subroles.map (fun role =>
            (role.validate request.Action
              request.Constraints).PermissionsMismatching)).flatten } := by
  unfold CheckAuth rolesSlice
  dsimp only
  rw [List.filterMap_append, filterMap_entry_replicate, List.nil_append,
    List.filterMap_map]
  simp only [Function.comp_def]
  rw [positives_nil_of_all_deny _ _ _ hall]
  rw [List.map_append, List.flatten_append, flatten_map_entry_replicate,
    List.nil_append, List.map_map]
  simp only [Function.comp_def, authResponse.mk.injEq, true_and]
  congr 1
  apply List.map_congr_left
  intro r hr
  have hra := List.all_eq_true.mp hall r hr
  rw [Bool.not_eq_true'] at hra
  simp [entryMismatching, hra]

/-- Claim C4, witness: a concrete deny — the engine holds role `A`
requiring `env = prod`, the request offers no constraints, so the deny
response carries exactly that mismatching permission. -/
theorem checkAuth_deny_aggregation_witness :
    engineLoaded.root_role.Subroles.all
        (fun role =>
          !(role.validate requestDeny.Action requestDeny.Constraints).Auth)
        = true ∧
    CheckAuth engineLoaded requestDeny =
      { Auth := false, Role_ID := none, PermissionGranting := none
        PermissionsMismatching :=
          (engineLoaded.root_role.Subroles.map (fun role =>
            (role.validate requestDeny.Action
              requestDeny.Constraints).PermissionsMismatching)).flatten } :=
  ⟨by decide, checkAuth_deny_aggregation engineLoaded requestDeny (by decide)⟩

/-- Claim C5, counterexample: a description containing a node whose ID
already exists (`root`) need not fail with `RoleAlreadyExists` — when an
earlier-processed node fails first (here a malformed permission action
on the ancestor), the load fails with `InvalidAction` instead. -/
theorem load_duplicate_error_kind_cex :
    containsExistingID engine0.roles roleJSONDupAfterBadAction = true ∧
    (LoadRoleFromJSON engine0 roleJSONDupAfterBadAction).1
        = some .invalidAction := by
  refine ⟨by decide, by decide⟩

/-- Claim C5, amended: a role description containing (at any node of its
subtree) an identifier already registered in the engine's role index
always makes `LoadRoleFromJSON` fail; the error is `RoleAlreadyExists`
whenever every node is otherwise valid (nonempty identifiers,
well-formed permission actions). -/
theorem load_duplicate_fails_amended (engine : AuthEngine) (j : RoleJSON)
    (h : containsExistingID engine.roles j = true) :
    (∃ err, (LoadRoleFromJSON engine j).1 = some err) ∧
    (j.wellFormed = true →
      (LoadRoleFromJSON engine j).1 = some .roleAlreadyExists) := by
  obtain ⟨err, herr⟩ := recLoad_contains_fails engine j h
  have hmain : (LoadRoleFromJSON engine j).1 = some err := by
    unfold LoadRoleFromJSON
    split
    · rename_i e e1 hl
      rw [hl] at herr
      injection herr with h2
      rw [h2]
    · rename_i r e1 hl
      rw [hl] at herr
      exact absurd herr (by simp)
  refine ⟨⟨err, hmain⟩, fun hw => ?_⟩
  have hkind := recLoad_wellFormed_kind engine j hw err herr
  rw [hmain, hkind]

/-- Claim C5, witness: loading `X(subroles: root)` — well formed, with
the duplicate `root` — into a fresh engine fails with
`RoleAlreadyExists`. -/
theorem load_duplicate_fails_amended_witness :
    containsExistingID engine0.roles roleJSONDupOnly = true ∧
    ((∃ err, (LoadRoleFromJSON engine0 roleJSONDupOnly).1 = some err) ∧
      (roleJSONDupOnly.wellFormed = true →
        (LoadRoleFromJSON engine0 roleJSONDupOnly).1
          = some .roleAlreadyExists)) :=
  ⟨by decide,
    load_duplicate_fails_amended engine0 roleJSONDupOnly (by decide)⟩

/-- Claim C6: the permission-registry invariant does not hold.  After
loading role `A` with one permission into a fresh engine, role `A`
grants that permission, yet `engine.permissions` is empty — nothing
among the sources ever inserts a permission into the registry. -/
theorem permission_registry_orphan_invariant_bug :
    engineLoaded.permissions = [] ∧
    (match engineLoaded.roles.lookup "A" with
     | some role => role.Permissions.length == 1
     | none => false) = true := by
  refine ⟨by decide, by decide⟩

/-- Claim C7, counterexample: a request referencing a resource the
engine cannot resolve is *not* rejected by `ParseRequest`: the parse
returns successfully, with no error value at all. -/
theorem parseRequest_no_invalid_request_cex :
    engine0.findResource "/nowhere" = none ∧
    (match ParseRequest engine0 unmarshalledUnknownResource with
     | .ok (_, none) => true
     | _ => false) = true :=
  ⟨rfl, rfl⟩

/-- Claim C7, amended: when the unmarshalled request carries a resource
reference whose ID resolves to no engine resource, `ParseRequest`
returns the request with its resource reference overwritten to nil,
together with the (absent) unmarshal error — no `InvalidRequest`
rejection occurs before evaluation. -/
theorem parseRequest_unresolved_amended (engine : AuthEngine)
    (u : UnmarshalResult) (stub : Resource)
    (h1 : u.request.Action.Resource = some stub)
    (h2 : engine.findResource stub.ID = none) :
    ParseRequest engine u =
      .ok ({ u.request with
               Action := { u.request.Action with Resource := none } },
           u.err) := by
  unfold ParseRequest
  dsimp only
  rw [h1]
  dsimp only
  rw [h2]

/-- Claim C7, witness: the amended behaviour at a concrete fresh engine
and a concrete request naming the unknown resource `/nowhere`. -/
theorem parseRequest_unresolved_amended_witness :
    unmarshalledUnknownResource.request.Action.Resource
        = some { ptr := 0, ID := "/nowhere" } ∧
    engine0.findResource "/nowhere" = none ∧
    ParseRequest engine0 unmarshalledUnknownResource =
      .ok ({ unmarshalledUnknownResource.request with
               Action := { unmarshalledUnknownResource.request.Action with
                             Resource := none } },
           unmarshalledUnknownResource.err) :=
  ⟨rfl, rfl,
    parseRequest_unresolved_amended engine0 unmarshalledUnknownResource
      _ rfl rfl⟩

/-- Claim C8: the role slice `CheckAuth` constructs over an engine whose
root has `n ≥ 1` subroles has length `2n`, its first `n` entries are the
nil roles produced by `make`, its last `n` entries are the actual roles
appended after them, and `wg.Add` receives `2n` (the slice length), not
the number of actual roles. -/
theorem checkAuth_nil_slice_entries (engine : AuthEngine)
    (_h : 1 ≤ engine.root_role.Subroles.length) :
    (rolesSlice engine).length = 2 * engine.root_role.Subroles.length ∧
    (rolesSlice engine).take engine.root_role.Subroles.length
      = List.replicate engine.root_role.Subroles.length
          (none : Option Role) ∧
    (rolesSlice engine).drop engine.root_role.Subroles.length
      = engine.root_role.Subroles.map some ∧
    wgCount engine = 2 * engine.root_role.Subroles.length := by
  refine ⟨?_, ?_, ?_, ?_⟩
  · unfold rolesSlice
    rw [List.length_append, List.length_replicate, List.length_map, two_mul]
  · unfold rolesSlice
    exact List.take_left' (List.length_replicate _ _)
  · unfold rolesSlice
    exact List.drop_left' (List.length_replicate _ _)
  · unfold wgCount rolesSlice
    rw [List.length_append, List.length_replicate, List.length_map, two_mul]

/-- Claim C8, witness: the slice facts at a concrete engine whose root
has one subrole. -/
theorem checkAuth_nil_slice_entries_witness :
    1 ≤ engineLoaded.root_role.Subroles.length ∧
    ((rolesSlice engineLoaded).length
        = 2 * engineLoaded.root_role.Subroles.length ∧
      (rolesSlice engineLoaded).take engineLoaded.root_role.Subroles.length
        = List.replicate engineLoaded.root_role.Subroles.length
            (none : Option Role) ∧
      (rolesSlice engineLoaded).drop engineLoaded.root_role.Subroles.length
        = engineLoaded.root_role.Subroles.map some ∧
      wgCount engineLoaded = 2 * engineLoaded.root_role.Subroles.length) :=
  ⟨by decide, checkAuth_nil_slice_entries engineLoaded (by decide)⟩

/-- Claim C9: `ParseRequest` dereferences the nil resource reference of
the body `{}` instead of returning an error, and whenever
`json.Unmarshal` reports an error (with a resource reference present so
the nil dereference is not hit first), `ParseRequest` still performs the
resource lookup and returns the partially filled request alongside the
error rather than rejecting the input first. -/
theorem parseRequest_nil_deref_and_passthrough :
    ParseRequest engine0 unmarshalledEmptyBody = .error .nilDereference ∧
    ∀ (engine : AuthEngine) (u : UnmarshalResult) (msg : String)
      (stub : Resource),
      u.err = some msg → u.request.Action.Resource = some stub →
      ParseRequest engine u =
        .ok ({ u.request with
                 Action := { u.request.Action with
                               Resource := engine.findResource stub.ID } },
             some msg) := by
  refine ⟨rfl, ?_⟩
  intro engine u msg stub hmsg hres
  unfold ParseRequest
  dsimp only
  rw [hres]
  dsimp only
  rw [hmsg]

/-- Claim C9, witness: the error-passthrough conjunct at a concrete
failed unmarshal carrying the resource reference `/partial`. -/
theorem parseRequest_nil_deref_and_passthrough_witness :
    unmarshalledFailed.err = some "unexpected end of JSON input" ∧
    unmarshalledFailed.request.Action.Resource
        = some { ptr := 0, ID := "/partial" } ∧
    ParseRequest engine0 unmarshalledFailed =
      .ok ({ unmarshalledFailed.request with
               Action := { unmarshalledFailed.request.Action with
                             Resource := engine0.findResource "/partial" } },
           some "unexpected end of JSON input") :=
  ⟨rfl, rfl,
    parseRequest_nil_deref_and_passthrough.2 engine0 unmarshalledFailed
      _ _ rfl rfl⟩

/-- Claim C10: starting from the engine `NewAuthEngine` produces, the
permission registry stays empty across every sequence of load
operations: `LoadPermissionFromJSON` returns its permission without
registering it, and no load path writes `engine.permissions`. -/
theorem permissions_registry_always_empty :
    NewAuthEngine = .ok engine0 ∧
    (∀ (engine : AuthEngine) (pj : PermissionJSON),
        ((LoadPermissionFromJSON engine pj).2).permissions
          = engine.permissions) ∧
    ∀ (ops : List LoadOp), (applyOps engine0 ops).permissions = [] := by
  refine ⟨rfl, loadPermissionFromJSON_permissions, fun ops => ?_⟩
  rw [applyOps_permissions]
  rfl

end Arborist
